import Mathlib

/-!
Verification development for the ingestion pipeline of
`src/consumers/consumer_montoya.py` (with the source-file model of the
producer-written live data file). The Python code is embedded shallowly:
JSON values are an inductive type, the mutable module-level aggregator
state (`category_sentiments`, `time_series`) is threaded explicitly, and
the per-line body of `consume_messages_from_file` is a recursive function
over the decoded lines of one read pass.
-/

namespace ConsumerMontoya

/-- A JSON value as returned by `json.loads`: `null`, booleans, numbers
(ints and floats are both modelled as rationals), strings, arrays and
objects. Duplicate keys cannot survive `json.loads` (the last binding
wins), which `dictGet` mirrors by searching the field list from the right. -/
inductive JVal where
  | null
  | bool (b : Bool)
  | num (q : ℚ)
  | str (s : String)
  | arr (elems : List JVal)
  | obj (fields : List (String × JVal))

/-- `d.get(k)` on a decoded JSON object: the value of the last binding of
`k`, or `None` when the key is absent. -/
def dictGet (fs : List (String × JVal)) (k : String) : Option JVal :=
  (fs.reverse.find? (fun p => p.1 == k)).map (fun p => p.2)

/-- Value of a digit string, most significant digit first. -/
def digitsVal (ds : List Char) : ℕ :=
  ds.foldl (fun n c => 10 * n + (c.toNat - 48)) 0

/-- Strip one leading sign; returns (isNegative, rest). -/
def parseSign : List Char → Bool × List Char
  | '-' :: rest => (true, rest)
  | '+' :: rest => (false, rest)
  | cs => (false, cs)

/-- The exponent tail of a Python float literal: `[sign] digits`, nothing
after. Applies the scaling to the mantissa; `none` on a malformed tail. -/
def applyExpTail (cs : List Char) (mant : ℚ) : Option ℚ :=
  match parseSign cs with
  | (eneg, cs1) =>
    match cs1.takeWhile Char.isDigit, cs1.dropWhile Char.isDigit with
    | [], _ => none
    | _, _ :: _ => none
    | ds, [] =>
      some (if eneg then mant / (10 : ℚ) ^ digitsVal ds
            else mant * (10 : ℚ) ^ digitsVal ds)

/-- Optional exponent marker after the mantissa. -/
def applyExp (cs : List Char) (mant : ℚ) : Option ℚ :=
  match cs with
  | [] => some mant
  | 'e' :: r => applyExpTail r mant
  | 'E' :: r => applyExpTail r mant
  | _ => none

/-- The numeric-literal grammar accepted by Python `float()` on an
already-stripped string: `[sign] (digits [. digits] | digits . | . digits)
[(e|E) [sign] digits]`. (The special literals `inf`/`nan` are not
modelled; no claim involves them.) -/
def parseFloatChars (cs : List Char) : Option ℚ :=
  match parseSign cs with
  | (neg, cs1) =>
    let ip := cs1.takeWhile Char.isDigit
    let rest1 := cs1.dropWhile Char.isDigit
    match rest1 with
    | '.' :: r =>
      let fp := r.takeWhile Char.isDigit
      let rest2 := r.dropWhile Char.isDigit
      if ip.isEmpty && fp.isEmpty then none
      else
        (applyExp rest2 ((digitsVal ip : ℚ) + (digitsVal fp : ℚ) / (10 : ℚ) ^ fp.length)).map
          (fun q => if neg then -q else q)
    | _ =>
      if ip.isEmpty then none
      else (applyExp rest1 (digitsVal ip : ℚ)).map (fun q => if neg then -q else q)

/-- The integer-literal grammar accepted by Python `int()` on an
already-stripped string: `[sign] digits`, nothing after. -/
def parseIntChars (cs : List Char) : Option ℤ :=
  match parseSign cs with
  | (neg, cs1) =>
    match cs1.takeWhile Char.isDigit, cs1.dropWhile Char.isDigit with
    | [], _ => none
    | _, _ :: _ => none
    | ds, [] => some (if neg then -(digitsVal ds : ℤ) else (digitsVal ds : ℤ))

/-- Python `float(v)` on a JSON value: numbers pass through, booleans give
0/1, strings are stripped and parsed, everything else raises (`none`). -/
def pyFloat : JVal → Option ℚ
  | .num q => some q
  | .bool b => some (if b then 1 else 0)
  | .str s => parseFloatChars s.trim.toList
  | _ => none

/-- Python `int(v)` on a JSON value: numbers truncate toward zero,
booleans give 0/1, strings are stripped and parsed as integer literals,
everything else raises (`none`). -/
def pyInt : JVal → Option ℤ
  | .num q => some (q.num.tdiv (q.den : ℤ))
  | .bool b => some (if b then 1 else 0)
  | .str s => parseIntChars s.trim.toList
  | _ => none

/-- `float(message.get("sentiment", 0.0))`: an absent field defaults to
`0.0` (which `float` passes through); a present field is coerced. -/
def pyFloatOfField : Option JVal → Option ℚ
  | none => some 0
  | some v => pyFloat v

/-- `int(message.get("message_length", 0))`: an absent field defaults to
`0`; a present field is coerced. -/
def pyIntDefault : Option JVal → Option ℤ
  | none => some 0
  | some v => pyInt v

/-- Python truthiness of a JSON value (`if category:`). -/
def pyTruthy : JVal → Bool
  | .null => false
  | .bool b => b
  | .num q => decide (q ≠ 0)
  | .str s => decide (s ≠ "")
  | .arr l => !l.isEmpty
  | .obj l => !l.isEmpty

/-- Truthiness of a `dict.get` result (`None` is falsy). -/
def truthyOpt : Option JVal → Bool
  | none => false
  | some v => pyTruthy v

/-- Hashable JSON values, as Python dict keys: lists and dicts raise
`TypeError` when used as keys. -/
def hashable : JVal → Bool
  | .arr _ => false
  | .obj _ => false
  | _ => true

/-- A Python dict key for `category_sentiments`. Python compares keys by
value equality, under which `True == 1 == 1.0`, so booleans map onto
numbers. -/
inductive HKey where
  | null
  | num (q : ℚ)
  | str (s : String)
  deriving DecidableEq

/-- The dict key a hashable JSON value hashes to; `none` for unhashable
values (`TypeError`). -/
def toKey : JVal → Option HKey
  | .null => some HKey.null
  | .bool b => some (HKey.num (if b then 1 else 0))
  | .num q => some (HKey.num q)
  | .str s => some (HKey.str s)
  | _ => none

/-- The module-level aggregator state of the consumer:
`category_sentiments = defaultdict(list)` and `time_series = []`. -/
structure AggState where
  category_sentiments : HKey → List ℚ
  time_series : List ℕ

/-- State at module import: both trackers empty. -/
def initAggState : AggState :=
  { category_sentiments := fun _ => [], time_series := [] }

/-- One rolling-window insertion from `process_message`:
`append(sentiment)` followed by `if len(...) > 50: pop(0)`. -/
def insertWindow (w : List ℚ) (x : ℚ) : List ℚ :=
  if 50 < (w ++ [x]).length then (w ++ [x]).tail else w ++ [x]

/-- The dict `process_message` returns: every field via `.get` (absent
keys become `None`), sentiment already float-coerced, `message_length`
int-coerced with default 0. -/
structure ProcessedMessage where
  message : Option JVal
  author : Option JVal
  timestamp : Option JVal
  category : Option JVal
  sentiment : ℚ
  keyword_mentioned : Option JVal
  message_length : ℤ

/-- Construction of the `processed_message` dict (the part of
`process_message` after the tracking update). `int()` on a bad
`message_length` raises, which the enclosing `try` turns into `None`. -/
def mkProcessed (fs : List (String × JVal)) (category : Option JVal) (sentiment : ℚ) :
    Option ProcessedMessage :=
  match pyIntDefault (dictGet fs "message_length") with
  | none => none
  | some ml =>
    some { message := dictGet fs "message"
           author := dictGet fs "author"
           timestamp := dictGet fs "timestamp"
           category := category
           sentiment := sentiment
           keyword_mentioned := dictGet fs "keyword_mentioned"
           message_length := ml }

/-- `process_message` from the consumer. Returns the processed dict (or
`None` when any step raised) together with the aggregator state after the
call; the tracking-list mutation precedes the dict construction, so a
failing `int(message_length)` still leaves the mutation in place. A
non-dict argument raises at the first `.get` (`AttributeError`); an
unhashable truthy category raises at the `category_sentiments[category]`
lookup (`TypeError`) before any mutation. -/
def process_message (st : AggState) (m : JVal) : Option ProcessedMessage × AggState :=
  match m with
  | .obj fs =>
    match pyFloatOfField (dictGet fs "sentiment") with
    | none => (none, st)
    | some sentiment =>
      match dictGet fs "category" with
      | none => (mkProcessed fs none sentiment, st)
      | some cv =>
        if pyTruthy cv && decide (sentiment ≠ 0) then
          match toKey cv with
          | none => (none, st)
          | some k =>
            (mkProcessed fs (some cv) sentiment,
             { category_sentiments :=
                 Function.update st.category_sentiments k
                   (insertWindow (st.category_sentiments k) sentiment)
               time_series := st.time_series ++ [st.time_series.length + 1] })
        else (mkProcessed fs (some cv) sentiment, st)
  | _ => (none, st)

/-- One raw line of the live data file as the loop body sees it after
`line.strip()` and `json.loads`: blank (stripped empty, skipped before
decoding), undecodable (`json.loads` raises `JSONDecodeError`), or decoded
to a JSON value. -/
inductive PLine where
  | blank
  | bad
  | ok (v : JVal)

/-- The state threaded through one call of `consume_messages_from_file`:
the module-level aggregator trackers, the local `batch_count`, the rows
inserted into `sentiment_messages` so far, and how many times
`calculate_average_sentiment` and `update_sentiment_chart` have run. -/
structure LoopState where
  agg : AggState
  batch_count : ℕ
  inserted : List ProcessedMessage
  avg_calls : ℕ
  chart_calls : ℕ

/-- Loop state at the top of `consume_messages_from_file` on a fresh run. -/
def initLoopState : LoopState :=
  { agg := initAggState, batch_count := 0, inserted := [], avg_calls := 0, chart_calls := 0 }

/-- Result of one read pass over the available lines: either the `for`
loop finished (and the pass would go on to update `last_position` and
sleep), or an exception escaped to the `except` handlers and the process
exited with the given status. -/
inductive LoopOutcome where
  | finished (st : LoopState)
  | exited (code : ℕ) (st : LoopState)

/-- The per-line `for` body of `consume_messages_from_file` over the lines
of one read pass. A `json.loads` failure is an exception inside the
`try` around the whole pass, caught by `except Exception` → `sys.exit(11)`.
A message `process_message` turns into `None` is skipped (no insert, no
batch increment). An accepted message is inserted, `batch_count` is
incremented, and when `batch_count % batch_size == 0` both
`calculate_average_sentiment` and `update_sentiment_chart` run once. -/
def consumeLines (B : ℕ) : LoopState → List PLine → LoopOutcome
  | st, [] => LoopOutcome.finished st
  | st, PLine.blank :: rest => consumeLines B st rest
  | st, PLine.bad :: _ => LoopOutcome.exited 11 st
  | st, PLine.ok v :: rest =>
    match process_message st.agg v with
    | (none, agg1) => consumeLines B { st with agg := agg1 } rest
    | (some pm, agg1) =>
      consumeLines B
        { agg := agg1
          batch_count := st.batch_count + 1
          inserted := st.inserted ++ [pm]
          avg_calls := st.avg_calls + (if (st.batch_count + 1) % B = 0 then 1 else 0)
          chart_calls := st.chart_calls + (if (st.batch_count + 1) % B = 0 then 1 else 0) }
        rest

/-- The state carried by a loop outcome. -/
def finalState : LoopOutcome → LoopState
  | LoopOutcome.finished st => st
  | LoopOutcome.exited _ st => st

/-- Whether the pass ran to completion (no `sys.exit`). -/
def isFinished : LoopOutcome → Bool
  | LoopOutcome.finished _ => true
  | LoopOutcome.exited _ _ => false

/-- Whether `process_message` accepts a decoded value (returns a dict
rather than `None`); this is independent of the aggregator state. -/
def acceptsMsg (m : JVal) : Bool :=
  ((process_message initAggState m).1).isSome

/-- Number of lines in a pass that the loop body accepts (each of these
increments `batch_count` and inserts a row). -/
def acceptedCount (ls : List PLine) : ℕ :=
  ls.countP (fun l => match l with | PLine.ok v => acceptsMsg v | _ => false)

/-- No line of the pass fails `json.loads`. -/
def noBadL (ls : List PLine) : Bool :=
  ls.all (fun l => match l with | PLine.bad => false | _ => true)

/-- Folding `process_message` over a list of decoded messages, keeping
only the aggregator state (the tracking side of repeated calls). -/
def runMessages (st : AggState) (ms : List JVal) : AggState :=
  ms.foldl (fun s m => (process_message s m).2) st

/-- A minimal accepted message for one category and sentiment, as the
tests of the rolling window insert them. -/
def mkMsg (c : String) (q : ℚ) : JVal :=
  JVal.obj [("category", JVal.str c), ("sentiment", JVal.num q)]

/-- Whether one `process_message` call runs the tracking block
(`if category and sentiment:` succeeded and the dict lookup did not
raise): the category is present, truthy and hashable and the coerced
sentiment is nonzero. -/
def guardFires (m : JVal) : Bool :=
  match m with
  | JVal.obj fs =>
    match pyFloatOfField (dictGet fs "sentiment"), dictGet fs "category" with
    | some s, some cv => pyTruthy cv && decide (s ≠ 0) && hashable cv
    | _, _ => false
  | _ => false

/-- Splitting the bytes a read pass sees into the lines Python file
iteration yields: every line keeps its terminating newline, and trailing
bytes with no newline form a final (unterminated) line. -/
def splitLinesAux : List Char → List Char → List (List Char)
  | [], acc => if acc.isEmpty then [] else [acc.reverse]
  | c :: rest, acc =>
    if c = '\n' then (acc.reverse ++ ['\n']) :: splitLinesAux rest []
    else splitLinesAux rest (c :: acc)

/-- The lines of a chunk of file content, as `for line in file` yields
them. -/
def splitFileLines (cs : List Char) : List (List Char) :=
  splitLinesAux cs []

/-- One read pass of the tailer over a file of content `content` with the
stored cursor `pos`: `file.seek(last_position)`, iterate to EOF, then
`last_position = file.tell()`. Seeking beyond EOF is allowed; iteration
then yields nothing and `tell()` still reports the sought position. -/
def pollLines (content : List Char) (pos : ℕ) : List (List Char) × ℕ :=
  (splitFileLines (content.drop pos), max pos content.length)

/-- The fatal-or-final outcomes of the consumer process. -/
inductive FailureClass where
  | configRead
  | storageInit
  | sourceUnavailable
  | midRunReadError
  | normalOrInterrupted

/-- Exit status per outcome, as the source exits: `main` STEP 1
`sys.exit(1)`; `init_db` handles its own failures with `sys.exit(1)`
(a `SystemExit` is not an `Exception`, so STEP 2's `sys.exit(2)` handler
never runs); `consume_messages_from_file` exits 10 on `FileNotFoundError`
and 11 on any other read error; `KeyboardInterrupt` is caught in `main`,
which then returns normally (status 0). -/
def exit_status : FailureClass → ℕ
  | FailureClass.configRead => 1
  | FailureClass.storageInit => 1
  | FailureClass.sourceUnavailable => 10
  | FailureClass.midRunReadError => 11
  | FailureClass.normalOrInterrupted => 0

/-- Whether a JSON value is an object (a Python dict). -/
def isObjB : JVal → Bool
  | .obj _ => true
  | _ => false

/-- A default processed dict, used only to read fields out of an
`Option ProcessedMessage` in concrete statements. -/
def pmDefault : ProcessedMessage :=
  { message := none, author := none, timestamp := none, category := none,
    sentiment := 0, keyword_mentioned := none, message_length := 0 }

/-- A JSON value is hashable exactly when it has a dict key. -/
theorem toKey_isSome (v : JVal) : (toKey v).isSome = hashable v := by
  cases v <;> rfl

/-- The dict returned by `process_message` does not depend on the
aggregator state: only the tracking side effect does. -/
theorem pm_fst_indep (st st' : AggState) (m : JVal) :
    (process_message st m).1 = (process_message st' m).1 := by
  cases m with
  | obj fs =>
    dsimp only [process_message]
    cases hf : pyFloatOfField (dictGet fs "sentiment") with
    | none => rfl
    | some s =>
      dsimp only
      cases hc : dictGet fs "category" with
      | none => rfl
      | some cv =>
        dsimp only
        cases hg : (pyTruthy cv && decide (s ≠ 0)) with
        | false => simp only [Bool.false_eq_true, if_false]
        | true =>
          simp only [if_true]
          cases toKey cv with
          | none => rfl
          | some k => rfl
  | null => rfl
  | bool b => rfl
  | num q => rfl
  | str s => rfl
  | arr l => rfl

/-- One `process_message` call appends the next message index to
`time_series` exactly when the tracking guard fires, and leaves it
unchanged otherwise. -/
theorem ts_step (st : AggState) (m : JVal) :
    (process_message st m).2.time_series =
      (if guardFires m then st.time_series ++ [st.time_series.length + 1]
       else st.time_series) := by
  cases m with
  | obj fs =>
    dsimp only [process_message, guardFires]
    cases hf : pyFloatOfField (dictGet fs "sentiment") with
    | none => rfl
    | some s =>
      dsimp only
      cases hc : dictGet fs "category" with
      | none => rfl
      | some cv =>
        dsimp only
        cases hg : (pyTruthy cv && decide (s ≠ 0)) with
        | false => simp
        | true =>
          cases hk : toKey cv with
          | none =>
            have hh : hashable cv = false := by
              rw [← toKey_isSome, hk] ; rfl
            simp [hh]
          | some k =>
            have hh : hashable cv = true := by
              rw [← toKey_isSome, hk] ; rfl
            simp [hh]
  | null => rfl
  | bool b => rfl
  | num q => rfl
  | str s => rfl
  | arr l => rfl

/-- Folding rolling-window insertions keeps exactly the most recent 50
values: starting from at most 50 retained values, the result is the
concatenated stream with all but its last 50 elements dropped. -/
theorem insertWindow_foldl (xs : List ℚ) : ∀ (w : List ℚ), w.length ≤ 50 →
    List.foldl insertWindow w xs = (w ++ xs).drop (w.length + xs.length - 50) := by
  induction xs with
  | nil =>
    intro w hw
    simp [Nat.sub_eq_zero_of_le hw]
  | cons x xs ih =>
    intro w hw
    rw [List.foldl_cons]
    rcases Nat.lt_or_ge w.length 50 with hlt | hge
    · have h1 : insertWindow w x = w ++ [x] := by
        unfold insertWindow
        rw [if_neg]
        simp
        omega
      rw [h1, ih (w ++ [x]) (by simp ; omega)]
      have e1 : (w ++ [x]) ++ xs = w ++ x :: xs := by simp
      have e2 : (w ++ [x]).length + xs.length - 50 = w.length + (x :: xs).length - 50 := by
        simp
        omega
      rw [e1, e2]
    · have hw50 : w.length = 50 := le_antisymm hw hge
      cases w with
      | nil => simp at hw50
      | cons a t =>
        have ht : t.length = 49 := by
          have h0 := hw50
          simp at h0
          omega
        have h1 : insertWindow (a :: t) x = t ++ [x] := by
          unfold insertWindow
          rw [if_pos]
          · rfl
          · simp
            omega
        rw [h1, ih (t ++ [x]) (by simp ; omega)]
        have e1 : (t ++ [x]) ++ xs = t ++ x :: xs := by simp
        have e2 : (t ++ [x]).length + xs.length - 50 = xs.length := by
          simp
          omega
        rw [e1, e2]
        have e3 : (a :: t) ++ x :: xs = a :: (t ++ x :: xs) := rfl
        have e4 : (a :: t).length + (x :: xs).length - 50 = xs.length + 1 := by
          simp
          omega
        rw [e3, e4, List.drop_succ_cons]

/-- One accepted single-category message: the full effect of
`process_message` on a `{"category": c, "sentiment": x}` message with a
non-empty category and nonzero sentiment. -/
theorem window_step (st : AggState) (c : String) (x : ℚ) (hc : c ≠ "") (hx : x ≠ 0) :
    process_message st (mkMsg c x)
      = (some { message := none, author := none, timestamp := none,
                category := some (JVal.str c), sentiment := x,
                keyword_mentioned := none, message_length := 0 },
         { category_sentiments := Function.update st.category_sentiments (HKey.str c)
             (insertWindow (st.category_sentiments (HKey.str c)) x)
           time_series := st.time_series ++ [st.time_series.length + 1] }) := by
  have hf : pyFloatOfField
      (dictGet [("category", JVal.str c), ("sentiment", JVal.num x)] "sentiment")
      = some x := rfl
  have hguard : (pyTruthy (JVal.str c) && decide (x ≠ 0)) = true := by
    simp [pyTruthy, hc, hx]
  have hcat : dictGet [("category", JVal.str c), ("sentiment", JVal.num x)] "category"
      = some (JVal.str c) := rfl
  dsimp only [process_message, mkMsg]
  rw [hf]
  dsimp only
  rw [hcat]
  dsimp only
  rw [hguard]
  rw [if_pos rfl]
  rfl

/-- Repeated accepted single-category messages fold `insertWindow` over
the sentiments in that category window. -/
theorem runMessages_window (c : String) (hc : c ≠ "") :
    ∀ (xs : List ℚ) (st : AggState), (∀ x ∈ xs, x ≠ 0) →
      (runMessages st (xs.map (mkMsg c))).category_sentiments (HKey.str c)
        = List.foldl insertWindow (st.category_sentiments (HKey.str c)) xs := by
  intro xs
  induction xs with
  | nil =>
    intro st _
    rfl
  | cons x xs ih =>
    intro st hx
    have hstep := window_step st c x hc (hx x (List.mem_cons_self x xs))
    show (runMessages (process_message st (mkMsg c x)).2 (xs.map (mkMsg c))).category_sentiments
        (HKey.str c) = _
    rw [hstep]
    dsimp only
    rw [ih _ (fun y hy => hx y (List.mem_cons_of_mem x hy))]
    dsimp only
    rw [Function.update_same, List.foldl_cons]

/-- Runs of `process_message` extend a `time_series` of the form
`[1, ..., k]` by one entry per guard-firing message. -/
theorem runMessages_ts (ms : List JVal) : ∀ (st : AggState) (k : ℕ),
    st.time_series = List.range' 1 k →
    (runMessages st ms).time_series = List.range' 1 (k + ms.countP guardFires) := by
  induction ms with
  | nil =>
    intro st k h
    simpa using h
  | cons m ms ih =>
    intro st k h
    show (runMessages (process_message st m).2 ms).time_series = _
    cases hg : guardFires m with
    | false =>
      have h2 : (process_message st m).2.time_series = List.range' 1 k := by
        rw [ts_step, hg]
        simpa using h
      rw [ih _ k h2, List.countP_cons]
      simp [hg]
    | true =>
      have h2 : (process_message st m).2.time_series = List.range' 1 (k + 1) := by
        rw [ts_step, hg]
        simp only [if_true]
        rw [h, List.length_range', List.range'_concat]
        simp
        omega
      rw [ih _ (k + 1) h2, List.countP_cons]
      simp [hg]
      omega

/-- Dividing a successor: the quotient grows exactly when the successor
is a multiple, stated with the modulus test the loop uses. -/
theorem succ_div_if (B c : ℕ) :
    (c + 1) / B = c / B + (if (c + 1) % B = 0 then 1 else 0) := by
  rw [Nat.succ_div]
  by_cases hd : B ∣ (c + 1)
  · rw [if_pos hd, if_pos (Nat.dvd_iff_mod_eq_zero.mp hd)]
  · rw [if_neg hd, if_neg (fun h => hd (Nat.dvd_iff_mod_eq_zero.mpr h))]

/-- Linear bookkeeping step for the trigger count across one accepted
event. -/
theorem div_step_arith (B c t a fin avg : ℕ)
    (h1 : fin + (c + 1) / B = avg + t + (c + 1 + a) / B)
    (h2 : (c + 1) / B = c / B + t) :
    fin + c / B = avg + (c + (a + 1)) / B := by
  have e : c + 1 + a = c + (a + 1) := by omega
  rw [e] at h1
  rw [h2] at h1
  generalize (c + (a + 1)) / B = X at h1 ⊢
  generalize c / B = Y at h1 ⊢
  omega

/-- No line of a tail fails decoding if none of the whole list does. -/
theorem noBadL_cons (l : PLine) (ls : List PLine) (h : noBadL (l :: ls) = true) :
    noBadL ls = true := by
  simp [noBadL, List.all_cons] at h ⊢
  intro x hx
  exact h.2 x hx

/-- Characterization of one read pass when every line decodes: the pass
finishes, `batch_count` grows by the number of accepted lines, and the
number of average-recomputation and chart-refresh calls grows by the
number of multiples of `B` the cumulative `batch_count` crosses. -/
theorem consume_stats (B : ℕ) :
    ∀ (ls : List PLine) (st : LoopState), noBadL ls = true →
      isFinished (consumeLines B st ls) = true ∧
      (finalState (consumeLines B st ls)).batch_count = st.batch_count + acceptedCount ls ∧
      (finalState (consumeLines B st ls)).avg_calls + st.batch_count / B
        = st.avg_calls + (st.batch_count + acceptedCount ls) / B ∧
      (finalState (consumeLines B st ls)).chart_calls + st.batch_count / B
        = st.chart_calls + (st.batch_count + acceptedCount ls) / B := by
  intro ls
  induction ls with
  | nil =>
    intro st _
    exact ⟨rfl, by simp [acceptedCount, consumeLines, finalState],
      by simp [acceptedCount, consumeLines, finalState],
      by simp [acceptedCount, consumeLines, finalState]⟩
  | cons l ls ih =>
    intro st hnb
    have hnb' : noBadL ls = true := noBadL_cons l ls hnb
    cases l with
    | blank =>
      have hcnt : acceptedCount (PLine.blank :: ls) = acceptedCount ls := by
        simp [acceptedCount]
      rw [hcnt]
      exact ih st hnb'
    | bad => simp [noBadL] at hnb
    | ok v =>
      cases hpm : process_message st.agg v with
      | mk pm? agg1 =>
        cases pm? with
        | none =>
          have hacc : acceptsMsg v = false := by
            unfold acceptsMsg
            rw [pm_fst_indep initAggState st.agg v, hpm]
            rfl
          have hcnt : acceptedCount (PLine.ok v :: ls) = acceptedCount ls := by
            simp [acceptedCount, List.countP_cons, hacc]
          have step : consumeLines B st (PLine.ok v :: ls)
              = consumeLines B { st with agg := agg1 } ls := by
            simp only [consumeLines, hpm]
          rw [hcnt, step]
          exact ih { st with agg := agg1 } hnb'
        | some pm =>
          have hacc : acceptsMsg v = true := by
            unfold acceptsMsg
            rw [pm_fst_indep initAggState st.agg v, hpm]
            rfl
          have hcnt : acceptedCount (PLine.ok v :: ls) = acceptedCount ls + 1 := by
            simp [acceptedCount, List.countP_cons, hacc]
          have step : consumeLines B st (PLine.ok v :: ls)
              = consumeLines B
                  { agg := agg1
                    batch_count := st.batch_count + 1
                    inserted := st.inserted ++ [pm]
                    avg_calls := st.avg_calls + (if (st.batch_count + 1) % B = 0 then 1 else 0)
                    chart_calls :=
                      st.chart_calls + (if (st.batch_count + 1) % B = 0 then 1 else 0) } ls := by
            simp only [consumeLines, hpm]
          obtain ⟨kF, kB, kA, kC⟩ := ih
            { agg := agg1
              batch_count := st.batch_count + 1
              inserted := st.inserted ++ [pm]
              avg_calls := st.avg_calls + (if (st.batch_count + 1) % B = 0 then 1 else 0)
              chart_calls :=
                st.chart_calls + (if (st.batch_count + 1) % B = 0 then 1 else 0) } hnb'
          rw [hcnt, step]
          refine ⟨kF, ?_, ?_, ?_⟩
          · rw [kB]
            dsimp only
            omega
          · dsimp only at kA
            exact div_step_arith B st.batch_count _ (acceptedCount ls) _ st.avg_calls kA
              (succ_div_if B st.batch_count)
          · dsimp only at kC
            exact div_step_arith B st.batch_count _ (acceptedCount ls) _ st.chart_calls kC
              (succ_div_if B st.batch_count)

/-- Rows already inserted are never removed by the rest of a pass: the
final insert list extends the starting one. -/
theorem inserted_extends (B : ℕ) :
    ∀ (ls : List PLine) (st : LoopState),
      ∃ t, (finalState (consumeLines B st ls)).inserted = st.inserted ++ t := by
  intro ls
  induction ls with
  | nil =>
    intro st
    exact ⟨[], by simp [consumeLines, finalState]⟩
  | cons l ls ih =>
    intro st
    cases l with
    | blank => exact ih st
    | bad => exact ⟨[], by simp [consumeLines, finalState]⟩
    | ok v =>
      cases hpm : process_message st.agg v with
      | mk pm? agg1 =>
        cases pm? with
        | none =>
          have step : consumeLines B st (PLine.ok v :: ls)
              = consumeLines B { st with agg := agg1 } ls := by
            simp only [consumeLines, hpm]
          rw [step]
          exact ih { st with agg := agg1 }
        | some pm =>
          have step : consumeLines B st (PLine.ok v :: ls)
              = consumeLines B
                  { agg := agg1
                    batch_count := st.batch_count + 1
                    inserted := st.inserted ++ [pm]
                    avg_calls := st.avg_calls + (if (st.batch_count + 1) % B = 0 then 1 else 0)
                    chart_calls :=
                      st.chart_calls + (if (st.batch_count + 1) % B = 0 then 1 else 0) } ls := by
            simp only [consumeLines, hpm]
          rw [step]
          obtain ⟨t, ht⟩ := ih
            { agg := agg1
              batch_count := st.batch_count + 1
              inserted := st.inserted ++ [pm]
              avg_calls := st.avg_calls + (if (st.batch_count + 1) % B = 0 then 1 else 0)
              chart_calls :=
                st.chart_calls + (if (st.batch_count + 1) % B = 0 then 1 else 0) }
          refine ⟨pm :: t, ?_⟩
          rw [ht]
          simp

/-- The yielded lines cover the read bytes exactly: concatenating what
`splitLinesAux` returns restores the accumulator followed by the input. -/
theorem splitLinesAux_join (cs : List Char) :
    ∀ (acc : List Char), (splitLinesAux cs acc).flatten = acc.reverse ++ cs := by
  induction cs with
  | nil =>
    intro acc
    by_cases h : acc.isEmpty
    · simp [splitLinesAux, h, List.isEmpty_iff.mp h]
    · simp [splitLinesAux, h]
  | cons c rest ih =>
    intro acc
    by_cases h : c = '\n'
    · subst h
      simp [splitLinesAux, ih]
    · simp [splitLinesAux, h, ih (c :: acc)]

/-- The dict construction fails exactly with the `int()` coercion. -/
theorem mkProcessed_eq_none (fs : List (String × JVal)) (cat : Option JVal) (s : ℚ)
    (hi : pyIntDefault (dictGet fs "message_length") = none) :
    mkProcessed fs cat s = none := by
  simp only [mkProcessed, hi]

/-- The dict construction succeeds whenever the `int()` coercion does. -/
theorem mkProcessed_isSome (fs : List (String × JVal)) (cat : Option JVal) (s : ℚ)
    (hi : (pyIntDefault (dictGet fs "message_length")).isSome = true) :
    (mkProcessed fs cat s).isSome = true := by
  unfold mkProcessed
  cases hm : pyIntDefault (dictGet fs "message_length") with
  | none =>
    rw [hm] at hi
    simp at hi
  | some ml => rfl

/-- Field inversion for a successfully constructed dict: message and
category come straight from `.get`, and `message_length` is the `int()`
coercion result. -/
theorem mkProcessed_fields (fs : List (String × JVal)) (cat : Option JVal) (s : ℚ)
    (pm : ProcessedMessage) (h : mkProcessed fs cat s = some pm) :
    pm.message = dictGet fs "message" ∧ pm.category = cat ∧
    pyIntDefault (dictGet fs "message_length") = some pm.message_length := by
  unfold mkProcessed at h
  cases hm : pyIntDefault (dictGet fs "message_length") with
  | none =>
    rw [hm] at h
    simp at h
  | some ml =>
    rw [hm] at h
    dsimp only at h
    injection h with h2
    rw [← h2]
    exact ⟨rfl, rfl, rfl⟩

/-- Field inversion through `process_message`: any returned dict carries
`.get` results for message and category and the coerced message length. -/
theorem pm_fields (st : AggState) (fs : List (String × JVal)) (pm : ProcessedMessage)
    (hpm : (process_message st (JVal.obj fs)).1 = some pm) :
    pm.message = dictGet fs "message" ∧ pm.category = dictGet fs "category" ∧
    pyIntDefault (dictGet fs "message_length") = some pm.message_length := by
  dsimp only [process_message] at hpm
  cases hf : pyFloatOfField (dictGet fs "sentiment") with
  | none =>
    rw [hf] at hpm
    simp at hpm
  | some s =>
    rw [hf] at hpm
    dsimp only at hpm
    cases hc : dictGet fs "category" with
    | none =>
      rw [hc] at hpm
      dsimp only at hpm
      have h := mkProcessed_fields fs none s pm hpm
      exact ⟨h.1, h.2.1, h.2.2⟩
    | some cv =>
      rw [hc] at hpm
      dsimp only at hpm
      cases hg : (pyTruthy cv && decide (s ≠ 0)) with
      | false =>
        rw [hg] at hpm
        simp only [Bool.false_eq_true, if_false] at hpm
        have h := mkProcessed_fields fs (some cv) s pm hpm
        exact ⟨h.1, h.2.1, h.2.2⟩
      | true =>
        rw [hg] at hpm
        simp only [if_true] at hpm
        cases hk : toKey cv with
        | none =>
          rw [hk] at hpm
          simp at hpm
        | some k =>
          rw [hk] at hpm
          dsimp only at hpm
          have h := mkProcessed_fields fs (some cv) s pm hpm
          exact ⟨h.1, h.2.1, h.2.2⟩

/-- C2 (confirmed): for every category, after inserting more than 50
sentiment values for that category through `process_message` (each
message carrying that non-empty category and a nonzero sentiment, from
any state whose window for the category holds at most its capacity of 50,
in particular the initial empty one), the window kept for that category
has length exactly 50 and equals, in order, the last 50 values inserted. -/
theorem C2_rolling_window (st : AggState) (c : String) (xs : List ℚ)
    (hc : c ≠ "") (hx : ∀ x ∈ xs, x ≠ 0) (hk : 50 < xs.length)
    (hw : (st.category_sentiments (HKey.str c)).length ≤ 50) :
    ((runMessages st (xs.map (mkMsg c))).category_sentiments (HKey.str c)).length = 50 ∧
    (runMessages st (xs.map (mkMsg c))).category_sentiments (HKey.str c)
      = xs.drop (xs.length - 50) := by
  have h1 := runMessages_window c hc xs st hx
  have h2 := insertWindow_foldl xs (st.category_sentiments (HKey.str c)) hw
  rw [h1, h2]
  constructor
  · rw [List.length_drop, List.length_append]
    omega
  · have e : (st.category_sentiments (HKey.str c)).length + xs.length - 50
        = (st.category_sentiments (HKey.str c)).length + (xs.length - 50) := by omega
    rw [e, List.drop_append]

/-- Witness for C2: 51 insertions of sentiment 1 into category x from the
initial state retain a window of length 50 equal to the last 50 values. -/
theorem C2_rolling_window_witness :
    ((runMessages initAggState ((List.replicate 51 (1 : ℚ)).map (mkMsg "x"))).category_sentiments
        (HKey.str "x")).length = 50 ∧
    (runMessages initAggState ((List.replicate 51 (1 : ℚ)).map (mkMsg "x"))).category_sentiments
        (HKey.str "x")
      = (List.replicate 51 (1 : ℚ)).drop ((List.replicate 51 (1 : ℚ)).length - 50) :=
  C2_rolling_window initAggState "x" (List.replicate 51 (1 : ℚ)) (by decide)
    (fun x hx => by rw [List.eq_of_mem_replicate hx] ; exact one_ne_zero)
    (by simp) (by decide)

/-- C10 (confirmed): after any sequence of `process_message` calls from
the initial state, `time_series` is exactly `[1, 2, ..., n]` where `n` is
the number of calls whose tracking guard fired (a present, truthy,
hashable category together with a nonzero coerced sentiment): the i-th
entry is i, the entries increase by exactly one, and the length equals
that count. -/
theorem C10_time_series_index (ms : List JVal) :
    (runMessages initAggState ms).time_series = List.range' 1 (ms.countP guardFires) ∧
    (runMessages initAggState ms).time_series.length = ms.countP guardFires := by
  have h := runMessages_ts ms initAggState 0 rfl
  rw [Nat.zero_add] at h
  exact ⟨h, by rw [h, List.length_range']⟩

/-- C3 (confirmed): a message whose coerced sentiment is exactly 0.0, or
whose category is absent or falsy (such as the empty string), leaves the
whole aggregator state — every category window and the message-index list
— unchanged, while the processed dict is still produced whenever the
sentiment and message-length coercions succeed. -/
theorem C3_zero_sentiment_noop (st : AggState) (fs : List (String × JVal))
    (h : pyFloatOfField (dictGet fs "sentiment") = some 0 ∨
         truthyOpt (dictGet fs "category") = false) :
    (process_message st (JVal.obj fs)).2 = st ∧
    ((pyFloatOfField (dictGet fs "sentiment")).isSome = true →
     (pyIntDefault (dictGet fs "message_length")).isSome = true →
     ((process_message st (JVal.obj fs)).1).isSome = true) := by
  cases hf : pyFloatOfField (dictGet fs "sentiment") with
  | none =>
    constructor
    · dsimp only [process_message]
      rw [hf]
    · intro hs _
      simp at hs
  | some s =>
    cases hc : dictGet fs "category" with
    | none =>
      constructor
      · dsimp only [process_message]
        rw [hf]
        dsimp only
        rw [hc]
      · intro _ hi
        dsimp only [process_message]
        rw [hf]
        dsimp only
        rw [hc]
        dsimp only
        exact mkProcessed_isSome fs none s hi
    | some cv =>
      have hguard : (pyTruthy cv && decide (s ≠ 0)) = false := by
        rcases h with h0 | hcat
        · rw [hf] at h0
          injection h0 with h0
          subst h0
          simp
        · rw [hc] at hcat
          have hcv : pyTruthy cv = false := hcat
          simp [hcv]
      constructor
      · dsimp only [process_message]
        rw [hf]
        dsimp only
        rw [hc]
        dsimp only
        rw [hguard]
        simp only [Bool.false_eq_true, if_false]
      · intro _ hi
        dsimp only [process_message]
        rw [hf]
        dsimp only
        rw [hc]
        dsimp only
        rw [hguard]
        simp only [Bool.false_eq_true, if_false]
        exact mkProcessed_isSome fs (some cv) s hi

/-- Witness for C3: sentiment exactly 0 for the non-empty category food
leaves the initial aggregator state unchanged and still yields a dict. -/
theorem C3_zero_sentiment_noop_witness :
    (process_message initAggState
        (JVal.obj [("category", JVal.str "food"), ("sentiment", JVal.num 0)])).2
      = initAggState ∧
    ((process_message initAggState
        (JVal.obj [("category", JVal.str "food"), ("sentiment", JVal.num 0)])).1).isSome
      = true :=
  ⟨(C3_zero_sentiment_noop initAggState
      [("category", JVal.str "food"), ("sentiment", JVal.num 0)] (Or.inl rfl)).1,
   (C3_zero_sentiment_noop initAggState
      [("category", JVal.str "food"), ("sentiment", JVal.num 0)] (Or.inl rfl)).2 rfl rfl⟩

/-- C6 (confirmed): with batch threshold B > 0 and the cumulative batch
counter at a multiple of B (as it is at the start and right after every
trigger), a pass whose lines all decode and that contains exactly B
accepted events runs the per-author average recomputation and the chart
snapshot exactly once each, and at no proper stopping point with fewer
than B accepted events has either been run. -/
theorem C6_batch_trigger (B : ℕ) (st : LoopState) (lines : List PLine)
    (hB : 0 < B) (h0 : st.batch_count % B = 0)
    (hnb : noBadL lines = true) (hacc : acceptedCount lines = B) :
    ((finalState (consumeLines B st lines)).avg_calls = st.avg_calls + 1 ∧
     (finalState (consumeLines B st lines)).chart_calls = st.chart_calls + 1) ∧
    (∀ p q, lines = p ++ q → acceptedCount p < B →
      (finalState (consumeLines B st p)).avg_calls = st.avg_calls ∧
      (finalState (consumeLines B st p)).chart_calls = st.chart_calls) := by
  obtain ⟨_, _, kA, kC⟩ := consume_stats B lines st hnb
  rw [hacc] at kA kC
  have hdiv : (st.batch_count + B) / B = st.batch_count / B + 1 :=
    Nat.add_div_right _ hB
  constructor
  · constructor
    · rw [hdiv] at kA
      generalize st.batch_count / B = Y at kA
      omega
    · rw [hdiv] at kC
      generalize st.batch_count / B = Y at kC
      omega
  · intro p q hpq hlt
    have hnbp : noBadL p = true := by
      have h' := hnb
      rw [hpq] at h'
      unfold noBadL at h' ⊢
      simp only [List.all_append, Bool.and_eq_true] at h'
      exact h'.1
    obtain ⟨_, _, pA, pC⟩ := consume_stats B p st hnbp
    obtain ⟨k, hk⟩ := Nat.dvd_iff_mod_eq_zero.mpr h0
    have h1 : (st.batch_count + acceptedCount p) / B = k + acceptedCount p / B := by
      rw [hk, Nat.mul_add_div hB]
    have h2 : st.batch_count / B = k := by
      have := Nat.mul_add_div hB k 0
      rw [hk]
      simpa using this
    have hdivp : (st.batch_count + acceptedCount p) / B = st.batch_count / B := by
      rw [h1, Nat.div_eq_of_lt hlt, h2]
      omega
    rw [hdivp] at pA pC
    constructor
    · generalize st.batch_count / B = Y at pA
      omega
    · generalize st.batch_count / B = Y at pC
      omega

/-- Witness for C6 with B = 2 from the initial state: two accepted
messages yield exactly one average recomputation and one chart refresh,
and after only the first accepted message neither has run. -/
theorem C6_batch_trigger_witness :
    (finalState (consumeLines 2 initLoopState
        [PLine.ok (mkMsg "x" 1), PLine.ok (mkMsg "x" 1)])).avg_calls
      = initLoopState.avg_calls + 1 ∧
    (finalState (consumeLines 2 initLoopState
        [PLine.ok (mkMsg "x" 1), PLine.ok (mkMsg "x" 1)])).chart_calls
      = initLoopState.chart_calls + 1 ∧
    (finalState (consumeLines 2 initLoopState [PLine.ok (mkMsg "x" 1)])).avg_calls
      = initLoopState.avg_calls :=
  ⟨((C6_batch_trigger 2 initLoopState [PLine.ok (mkMsg "x" 1), PLine.ok (mkMsg "x" 1)]
      (by decide) (by decide) (by decide) (by decide)).1).1,
   ((C6_batch_trigger 2 initLoopState [PLine.ok (mkMsg "x" 1), PLine.ok (mkMsg "x" 1)]
      (by decide) (by decide) (by decide) (by decide)).1).2,
   ((C6_batch_trigger 2 initLoopState [PLine.ok (mkMsg "x" 1), PLine.ok (mkMsg "x" 1)]
      (by decide) (by decide) (by decide) (by decide)).2 [PLine.ok (mkMsg "x" 1)]
      [PLine.ok (mkMsg "x" 1)] rfl (by decide)).1⟩

/-- C1 counterexample: a line that fails JSON decoding does stop the
loop: with a malformed line followed by a valid one, the pass exits at
once with status 11, the valid line is never processed and nothing is
inserted. -/
theorem C1_counterexample :
    consumeLines 10 initLoopState [PLine.bad, PLine.ok (mkMsg "x" 1)]
      = LoopOutcome.exited 11 initLoopState ∧
    isFinished (consumeLines 10 initLoopState [PLine.bad, PLine.ok (mkMsg "x" 1)]) = false ∧
    (finalState (consumeLines 10 initLoopState [PLine.bad, PLine.ok (mkMsg "x" 1)])).inserted
      = [] :=
  ⟨rfl, rfl, rfl⟩

/-- C1 (amended): a line that fails JSON decoding is not skipped — the
pass logs the error and exits with status 11, leaving the loop state as
it was and processing no further line; by contrast, a line that decodes
but that `process_message` rejects (returns `None`) is skipped without
advancing the batch counter, and the pass then runs to completion
whenever the remaining lines decode. -/
theorem C1_malformed_line (B : ℕ) :
    (∀ (st : LoopState) (rest : List PLine),
      consumeLines B st (PLine.bad :: rest) = LoopOutcome.exited 11 st) ∧
    (∀ (st : LoopState) (v : JVal) (rest : List PLine),
      (process_message st.agg v).1 = none → noBadL rest = true →
      isFinished (consumeLines B st (PLine.ok v :: rest)) = true ∧
      (finalState (consumeLines B st (PLine.ok v :: rest))).batch_count
        = st.batch_count + acceptedCount rest) := by
  constructor
  · intro st rest
    rfl
  · intro st v rest hrej hnb
    cases hpm : process_message st.agg v with
    | mk pm? agg1 =>
      cases pm? with
      | some pm =>
        rw [hpm] at hrej
        simp at hrej
      | none =>
        have step : consumeLines B st (PLine.ok v :: rest)
            = consumeLines B { st with agg := agg1 } rest := by
          simp only [consumeLines, hpm]
        rw [step]
        obtain ⟨kF, kB, _, _⟩ := consume_stats B rest { st with agg := agg1 } hnb
        exact ⟨kF, kB⟩

/-- Witness for C1 (amended): a malformed-only pass exits with 11; a pass
whose first line decodes to a non-dict (rejected by processing) skips it,
continues, and counts only the later accepted message. -/
theorem C1_malformed_line_witness :
    consumeLines 5 initLoopState [PLine.bad] = LoopOutcome.exited 11 initLoopState ∧
    isFinished (consumeLines 5 initLoopState
        [PLine.ok (JVal.num 1), PLine.ok (mkMsg "x" 1)]) = true ∧
    (finalState (consumeLines 5 initLoopState
        [PLine.ok (JVal.num 1), PLine.ok (mkMsg "x" 1)])).batch_count
      = initLoopState.batch_count + acceptedCount [PLine.ok (mkMsg "x" 1)] :=
  ⟨(C1_malformed_line 5).1 initLoopState [],
   ((C1_malformed_line 5).2 initLoopState (JVal.num 1) [PLine.ok (mkMsg "x" 1)] rfl rfl).1,
   ((C1_malformed_line 5).2 initLoopState (JVal.num 1) [PLine.ok (mkMsg "x" 1)] rfl rfl).2⟩

/-- C5 counterexample: the line decoding to an object with only a
sentiment field is not rejected: `process_message` yields a dict whose
message and category are both None (absent required fields do not fail
decoding), and the pass forwards that partially-populated dict to the
store — it ends up inserted. -/
theorem C5_counterexample :
    ((finalState (consumeLines 10 initLoopState
        [PLine.ok (JVal.obj [("sentiment", JVal.num 1)])])).inserted.map
      ProcessedMessage.message = [none]) ∧
    ((finalState (consumeLines 10 initLoopState
        [PLine.ok (JVal.obj [("sentiment", JVal.num 1)])])).inserted.map
      ProcessedMessage.category = [none]) ∧
    isFinished (consumeLines 10 initLoopState
        [PLine.ok (JVal.obj [("sentiment", JVal.num 1)])]) = true :=
  ⟨rfl, rfl, rfl⟩

/-- The dict construction succeeds exactly when the `int()` coercion of
`message_length` does. -/
theorem mkProcessed_isSome_iff (fs : List (String × JVal)) (cat : Option JVal) (s : ℚ) :
    (mkProcessed fs cat s).isSome = (pyIntDefault (dictGet fs "message_length")).isSome := by
  unfold mkProcessed
  cases hm : pyIntDefault (dictGet fs "message_length") with
  | none => rfl
  | some ml => rfl

/-- C5 (amended): decoding rejects a line exactly when the decoded value
is not an object, or the sentiment field fails float coercion, or the
message_length field fails int coercion, or the tracking guard fires
(truthy category and nonzero coerced sentiment) while the category value
is unhashable (a list or dict), which raises `TypeError` at the window
lookup; the absence of message or category never causes rejection — the
processed dict then carries None in those fields and is still forwarded
to (inserted into) the store. -/
theorem C5_decode_totality :
    (∀ (st : AggState) (m : JVal), isObjB m = false → (process_message st m).1 = none) ∧
    (∀ (st : AggState) (fs : List (String × JVal)),
      ((process_message st (JVal.obj fs)).1).isSome = true ↔
        ((pyFloatOfField (dictGet fs "sentiment")).isSome = true ∧
         (pyIntDefault (dictGet fs "message_length")).isSome = true ∧
         (∀ (s : ℚ) (cv : JVal), pyFloatOfField (dictGet fs "sentiment") = some s →
            dictGet fs "category" = some cv →
            pyTruthy cv = true → s ≠ 0 → hashable cv = true))) ∧
    (∀ (B : ℕ) (st : LoopState) (fs : List (String × JVal)) (pm : ProcessedMessage)
        (rest : List PLine),
      (process_message st.agg (JVal.obj fs)).1 = some pm →
      (dictGet fs "message" = none → pm.message = none) ∧
      (dictGet fs "category" = none → pm.category = none) ∧
      pm ∈ (finalState (consumeLines B st (PLine.ok (JVal.obj fs) :: rest))).inserted) := by
  refine ⟨?_, ?_, ?_⟩
  · intro st m h
    cases m <;> first | rfl | simp [isObjB] at h
  · intro st fs
    dsimp only [process_message]
    cases hf : pyFloatOfField (dictGet fs "sentiment") with
    | none => simp
    | some s0 =>
      dsimp only
      cases hc : dictGet fs "category" with
      | none =>
        dsimp only
        rw [mkProcessed_isSome_iff]
        constructor
        · intro h
          refine ⟨rfl, h, ?_⟩
          intro s cv hs hcv htr hnz
          simp at hcv
        · rintro ⟨-, h2, -⟩
          exact h2
      | some cv =>
        dsimp only
        cases hg : (pyTruthy cv && decide (s0 ≠ 0)) with
        | false =>
          simp only [Bool.false_eq_true, if_false]
          rw [mkProcessed_isSome_iff]
          simp at hg
          constructor
          · intro h
            refine ⟨rfl, h, ?_⟩
            intro s cv' hs hcv' htr hnz
            injection hs with hs
            subst hs
            injection hcv' with hcv'
            subst hcv'
            exact absurd (hg htr) hnz
          · rintro ⟨-, h2, -⟩
            exact h2
        | true =>
          have hg2 : pyTruthy cv = true ∧ ¬ s0 = 0 := by
            simpa using hg
          cases hk : toKey cv with
          | none =>
            have hh : hashable cv = false := by
              rw [← toKey_isSome, hk] ; rfl
            simp only [if_true]
            constructor
            · intro h
              simp at h
            · rintro ⟨-, -, h3⟩
              exact absurd (h3 s0 cv rfl rfl hg2.1 hg2.2) (by rw [hh] ; simp)
          | some k =>
            have hh : hashable cv = true := by
              rw [← toKey_isSome, hk] ; rfl
            simp only [if_true]
            rw [mkProcessed_isSome_iff]
            constructor
            · intro h
              refine ⟨rfl, h, ?_⟩
              intro s cv' hs hcv' htr hnz
              injection hcv' with hcv'
              subst hcv'
              exact hh
            · rintro ⟨-, h2, -⟩
              exact h2
  · intro B st fs pm rest hpm
    have hflds := pm_fields st.agg fs pm hpm
    refine ⟨?_, ?_, ?_⟩
    · intro hm
      rw [hflds.1, hm]
    · intro hcnone
      rw [hflds.2.1, hcnone]
    · cases hpq : process_message st.agg (JVal.obj fs) with
      | mk pm? agg1 =>
        rw [hpq] at hpm
        dsimp only at hpm
        subst hpm
        have step : consumeLines B st (PLine.ok (JVal.obj fs) :: rest)
            = consumeLines B
                { agg := agg1
                  batch_count := st.batch_count + 1
                  inserted := st.inserted ++ [pm]
                  avg_calls := st.avg_calls + (if (st.batch_count + 1) % B = 0 then 1 else 0)
                  chart_calls :=
                    st.chart_calls + (if (st.batch_count + 1) % B = 0 then 1 else 0) } rest := by
          simp only [consumeLines, hpq]
        rw [step]
        obtain ⟨t, ht⟩ := inserted_extends B rest
          { agg := agg1
            batch_count := st.batch_count + 1
            inserted := st.inserted ++ [pm]
            avg_calls := st.avg_calls + (if (st.batch_count + 1) % B = 0 then 1 else 0)
            chart_calls :=
              st.chart_calls + (if (st.batch_count + 1) % B = 0 then 1 else 0) }
        rw [ht]
        simp

/-- Witness for C5 (amended): the object carrying only a sentiment field
decodes (shown both directly and through the success characterization) to
the dict with None message and None category, and that dict is inserted
by the pass; by contrast, the object with the unhashable category [1] and
a nonzero sentiment is rejected even though every coercion succeeds. -/
theorem C5_decode_totality_witness :
    (process_message initLoopState.agg (JVal.obj [("sentiment", JVal.num 1)])).1
      = some { message := none, author := none, timestamp := none, category := none,
               sentiment := 1, keyword_mentioned := none, message_length := 0 } ∧
    ((process_message initAggState (JVal.obj [("sentiment", JVal.num 1)])).1).isSome = true ∧
    ({ message := none, author := none, timestamp := none, category := none,
       sentiment := 1, keyword_mentioned := none,
       message_length := 0 } : ProcessedMessage) ∈
      (finalState (consumeLines 10 initLoopState
        [PLine.ok (JVal.obj [("sentiment", JVal.num 1)])])).inserted ∧
    (process_message initAggState
        (JVal.obj [("category", JVal.arr [JVal.num 1]), ("sentiment", JVal.num 1)])).1
      = none :=
  ⟨rfl,
   (C5_decode_totality.2.1 initAggState [("sentiment", JVal.num 1)]).mpr
     ⟨rfl, rfl, fun _ _ _ hcv _ _ => Option.noConfusion hcv⟩,
   (C5_decode_totality.2.2 10 initLoopState [("sentiment", JVal.num 1)]
      { message := none, author := none, timestamp := none, category := none,
        sentiment := 1, keyword_mentioned := none, message_length := 0 } [] rfl).2.2,
   rfl⟩

/-- C8 counterexample: for a decoded message whose message text has
length 5 and with no message_length field, the processed dict carries
message_length 0, not the text length. -/
theorem C8_counterexample :
    ((process_message initAggState
        (JVal.obj [("message", JVal.str "hello")])).1.getD pmDefault).message_length = 0 ∧
    "hello".length = 5 ∧
    ¬ ((process_message initAggState
        (JVal.obj [("message", JVal.str "hello")])).1.getD pmDefault).message_length
        = ("hello".length : ℤ) :=
  ⟨rfl, rfl, by decide⟩

/-- C8 (amended): when the decoded message lacks a message_length field,
the processed dict carries the default 0 — the message text length is not
consulted; when message_length is supplied as a JSON integer, the
supplied value is kept as-is with no cross-check against the text
length. -/
theorem C8_message_length (st : AggState) (fs : List (String × JVal))
    (pm : ProcessedMessage) (hpm : (process_message st (JVal.obj fs)).1 = some pm) :
    (dictGet fs "message_length" = none → pm.message_length = 0) ∧
    (∀ q : ℚ, dictGet fs "message_length" = some (JVal.num q) → q.den = 1 →
      pm.message_length = q.num) := by
  have h := (pm_fields st fs pm hpm).2.2
  constructor
  · intro hnone
    rw [hnone] at h
    have h0 : (some (0 : ℤ) : Option ℤ) = some pm.message_length := h
    injection h0 with h0
    omega
  · intro q hq hden
    rw [hq] at h
    have h1 : some (q.num.tdiv (q.den : ℤ)) = some pm.message_length := h
    injection h1 with h1
    rw [← h1, hden]
    simp [Int.tdiv_one]

/-- Witness for C8: the message text hello (length 5) with no
message_length yields 0; a supplied message_length of 7 is kept
verbatim. -/
theorem C8_message_length_witness :
    ((process_message initAggState
        (JVal.obj [("message", JVal.str "hello")])).1.getD pmDefault).message_length = 0 ∧
    ((process_message initAggState
        (JVal.obj [("message", JVal.str "hello"), ("message_length", JVal.num 7)])).1.getD
        pmDefault).message_length = (7 : ℚ).num :=
  ⟨(C8_message_length initAggState [("message", JVal.str "hello")]
      { message := some (JVal.str "hello"), author := none, timestamp := none,
        category := none, sentiment := 0, keyword_mentioned := none, message_length := 0 }
      rfl).1 rfl,
   (C8_message_length initAggState
      [("message", JVal.str "hello"), ("message_length", JVal.num 7)]
      { message := some (JVal.str "hello"), author := none, timestamp := none,
        category := none, sentiment := 0, keyword_mentioned := none, message_length := 7 }
      rfl).2 7 rfl (by decide)⟩

/-- C4 counterexample: with stored offset 10 against a 2-byte file, the
poll yields nothing and the cursor stays at 10 — it is not reset to 0,
and it exceeds the current file length. -/
theorem C4_counterexample :
    (pollLines ['a', 'b'] 10).2 = 10 ∧
    ¬ (pollLines ['a', 'b'] 10).2 = 0 ∧
    (['a', 'b'] : List Char).length < (pollLines ['a', 'b'] 10).2 :=
  ⟨rfl, by decide, by decide⟩

/-- C4 (amended): when the current file length is smaller than the stored
offset, the next poll reads nothing and leaves the cursor at the stored
offset: there is no truncation detection, the cursor is not reset to 0,
and the stored offset keeps exceeding the file length. -/
theorem C4_truncation (content : List Char) (pos : ℕ) (h : content.length < pos) :
    (pollLines content pos).1 = [] ∧
    (pollLines content pos).2 = pos ∧
    ¬ (pollLines content pos).2 = 0 := by
  have hd : content.drop pos = [] := List.drop_eq_nil_of_le (le_of_lt h)
  have hmax : max pos content.length = pos := Nat.max_eq_left (le_of_lt h)
  refine ⟨?_, ?_, ?_⟩
  · dsimp [pollLines]
    rw [hd]
    rfl
  · dsimp [pollLines]
    exact hmax
  · dsimp [pollLines]
    rw [hmax]
    omega

/-- Witness for C4 (amended) at a 1-byte file with offset 7. -/
theorem C4_truncation_witness :
    (pollLines ['z'] 7).1 = [] ∧ (pollLines ['z'] 7).2 = 7 ∧
    ¬ (pollLines ['z'] 7).2 = 0 :=
  C4_truncation ['z'] 7 (by decide)

/-- C7 counterexample: polling the file bytes x, newline, y from offset 0
yields the trailing unterminated line y as well, and the stored cursor
becomes 3 (end of file), not 2 (the offset just after the last complete
line), so the partial line is consumed rather than retried. -/
theorem C7_counterexample :
    (pollLines ['x', '\n', 'y'] 0).1 = [['x', '\n'], ['y']] ∧
    (pollLines ['x', '\n', 'y'] 0).2 = 3 ∧
    ¬ (pollLines ['x', '\n', 'y'] 0).2 = 2 :=
  ⟨rfl, rfl, by decide⟩

/-- C7 (amended): a poll from a cursor within the file consumes every
byte up to EOF: the yielded lines concatenate to exactly the bytes from
the cursor on (so a trailing unterminated line is yielded and decoded in
the same pass), and the new cursor equals the end of file rather than the
offset after the last complete line. -/
theorem C7_poll_consumes_all (content : List Char) (pos : ℕ) (h : pos ≤ content.length) :
    ((pollLines content pos).1).flatten = content.drop pos ∧
    (pollLines content pos).2 = content.length := by
  constructor
  · dsimp [pollLines, splitFileLines]
    simpa using splitLinesAux_join (content.drop pos) []
  · exact Nat.max_eq_right h

/-- Witness for C7 (amended) at the bytes x, newline, y from offset 1. -/
theorem C7_poll_consumes_all_witness :
    ((pollLines ['x', '\n', 'y'] 1).1).flatten = (['x', '\n', 'y'] : List Char).drop 1 ∧
    (pollLines ['x', '\n', 'y'] 1).2 = (['x', '\n', 'y'] : List Char).length :=
  C7_poll_consumes_all ['x', '\n', 'y'] 1 (by decide)

/-- C9 (code bug): the source structure intends one distinct exit code
per fatal class (`main` STEP 2 has a `sys.exit(2)` handler for storage
initialization failures), but `init_db` already exits with status 1
itself — the same code as a configuration-read failure — and a
`SystemExit` is not an `Exception`, so that handler is unreachable: the
three fatal classes map to only two distinct codes (1, 1, 10), while
normal or interrupted shutdown is 0. -/
theorem C9_exit_codes :
    exit_status FailureClass.configRead = 1 ∧
    exit_status FailureClass.storageInit = 1 ∧
    exit_status FailureClass.sourceUnavailable = 10 ∧
    exit_status FailureClass.normalOrInterrupted = 0 ∧
    exit_status FailureClass.storageInit = exit_status FailureClass.configRead :=
  ⟨rfl, rfl, rfl, rfl, rfl⟩

end ConsumerMontoya
